import Mathlib

/-!
Shallow embedding of the atomic_sync library (atomic_mutex.h,
atomic_shared_mutex.h, atomic_shared_mutex.cc,
examples/atomic_condition_variable.h) over `Nat`, with machine words of
width 32 taken modulo `2 ^ 32`.  The default storage type of every
primitive is `uint32_t`, so `HOLDER` is the most significant bit
`2 ^ 31` and `WAITER` is `1`, as in `mutex_storage`:
`HOLDER = type(~(type(~type(0)) >> 1))`, `WAITER = 1`.

Atomic read-modify-write operations are modelled as pure functions from
the prior word value to the result; the memory orderings used by the
source are recorded as explicit constants so that statements about them
can be made.  Wake calls (`notify_one` / `notify_all`, the futex wake)
are modelled as explicit event values returned by the operations.
-/

namespace AtomicSync

/-- word width of the default `uint32_t` storage -/
def WORD : Nat := 2 ^ 32

/-- most significant bit of the 32-bit word, `mutex_storage::HOLDER` -/
def HOLDER : Nat := 2 ^ 31

/-- unit of the interest count, `mutex_storage::WAITER` -/
def WAITER : Nat := 1

theorem HOLDER_val : HOLDER = 2147483648 := by norm_num [HOLDER]

theorem WORD_val : WORD = 4294967296 := by norm_num [WORD]

/-- memory orderings appearing in the source -/
inductive MemOrder
  | relaxed
  | acquire
  | release
deriving DecidableEq

/-- wake events: `notify_one` wakes one waiter, `notify_all` wakes all -/
inductive Evt
  | wakeOne
  | wakeAll
deriving DecidableEq

/-- addition on the 32-bit word (`fetch_add` result value) -/
def wadd (a b : Nat) : Nat := (a + b) % WORD

/-- subtraction on the 32-bit word (`fetch_sub` result value), for a
subtrahend bounded by the word width -/
def wsub (a b : Nat) : Nat := (a + (WORD - b)) % WORD

theorem wadd_eq_add {a b : Nat} (h : a + b < WORD) : wadd a b = a + b := by
  simp [wadd, Nat.mod_eq_of_lt h]

theorem wsub_eq_sub {a b : Nat} (hb : b ≤ a) (ha : a < WORD) :
    wsub a b = a - b := by
  have hbW : b ≤ WORD := le_trans hb (le_of_lt ha)
  have : a + (WORD - b) = (a - b) + WORD := by omega
  rw [wsub, this, Nat.add_mod_right, Nat.mod_eq_of_lt (by omega)]

theorem land_holder_ne_zero_iff {s : Nat} (hs : s < WORD) :
    s &&& HOLDER ≠ 0 ↔ HOLDER ≤ s := by
  rw [HOLDER, Nat.and_two_pow]
  rw [WORD_val] at hs
  rw [Nat.testBit_to_div_mod]
  have h31 : (2 : Nat) ^ 31 = 2147483648 := by norm_num
  rw [h31]
  by_cases hb : s / 2147483648 % 2 = 1 <;> simp [hb] <;> omega

theorem land_holder_eq_zero_iff {s : Nat} (hs : s < WORD) :
    s &&& HOLDER = 0 ↔ s < HOLDER := by
  have h := land_holder_ne_zero_iff hs
  rw [HOLDER_val] at *
  constructor
  · intro h0
    by_contra hge
    exact (h.mpr (by omega)) h0
  · intro hlt
    by_contra hne
    have := h.mp hne
    omega

theorem lor_holder_eq_add {v : Nat} (h : v < HOLDER) :
    v ||| HOLDER = v + HOLDER := by
  rw [HOLDER] at *
  apply Nat.eq_of_testBit_eq
  intro j
  rcases lt_trichotomy j 31 with hj | hj | hj
  · rw [Nat.testBit_lor, Nat.add_comm, Nat.testBit_two_pow_add_gt hj,
      Nat.testBit_two_pow_of_ne (by omega), Bool.or_false]
  · subst hj
    rw [Nat.testBit_lor, Nat.add_comm, Nat.testBit_two_pow_add_eq]
    simp [Nat.testBit_eq_false_of_lt h]
    decide
  · have hv : v < 2 ^ j := lt_of_lt_of_le h (Nat.pow_le_pow_right (by norm_num) (by omega))
    have hsum : v + 2 ^ 31 < 2 ^ j := by
      have h32 : (32 : Nat) ≤ j := by omega
      have : (2 : Nat) ^ 32 ≤ 2 ^ j := Nat.pow_le_pow_right (by norm_num) h32
      have : v + 2 ^ 31 < 2 ^ 32 := by
        have : (2 : Nat) ^ 31 + 2 ^ 31 = 2 ^ 32 := by norm_num
        omega
      omega
    rw [Nat.testBit_lor, Nat.testBit_eq_false_of_lt hv,
      Nat.testBit_eq_false_of_lt hsum,
      Nat.testBit_two_pow_of_ne (by omega), Bool.or_false]

/-! ## Exclusive mutex: `mutex_storage` and `atomic_mutex`

The single atomic word is `m`; `HOLDER` is its most significant bit and
the low bits count the threads interested in the lock. -/

/-- mutex_storage::lock_impl — `compare_exchange_strong` of `0` to
`HOLDER + WAITER` on the word; returns (acquired, new word value) -/
def lock_impl (w : Nat) : Bool × Nat :=
  if w = 0 then (true, HOLDER + WAITER) else (false, w)

/-- ordering of the successful leg of `lock_impl` (source:
`std::memory_order_acquire`) -/
def lock_impl_success_order : MemOrder := MemOrder.acquire

/-- ordering of the failing leg of `lock_impl` (source:
`std::memory_order_relaxed`) -/
def lock_impl_failure_order : MemOrder := MemOrder.relaxed

/-- mutex_storage::unlock_impl — `fetch_sub(HOLDER + WAITER)` on the
word; returns (whether the lock is being waited for, new word value);
the argument is the prior value `lk` observed by the fetch_sub -/
def unlock_impl (w : Nat) : Bool × Nat :=
  (decide (w ≠ HOLDER + WAITER), wsub w (HOLDER + WAITER))

/-- ordering of the `fetch_sub` in `unlock_impl` (source:
`std::memory_order_release`) -/
def unlock_impl_order : MemOrder := MemOrder.release

/-- debug assertion in `unlock_impl`: `assert(lk & HOLDER)` -/
def unlock_impl_assert (w : Nat) : Bool := decide (w &&& HOLDER ≠ 0)

/-- atomic_mutex::try_lock — a single `lock_impl`; the thread-sanitizer
hooks around it do not touch the word -/
def M.try_lock (w : Nat) : Bool × Nat := lock_impl w

/-- wake events issued by atomic_mutex::try_lock: the function contains
no `notify_one`, `notify_all` or `wait` call -/
def M.try_lock_evts : List Evt := []

/-- atomic_mutex::unlock — `unlock_impl`, then `unlock_notify`
(`notify_one` on the word) exactly when `unlock_impl` returned true;
returns (wake events issued, new word value) -/
def M.unlock (w : Nat) : List Evt × Nat :=
  (if (unlock_impl w).1 then [Evt.wakeOne] else [], (unlock_impl w).2)

theorem M_unlock_evts (w : Nat) :
    (M.unlock w).1 = if w = HOLDER + WAITER then [] else [Evt.wakeOne] := by
  by_cases h : w = HOLDER + WAITER <;> simp [M.unlock, unlock_impl, h]

theorem holder_le_of_land_ne {s : Nat} (h : s &&& HOLDER ≠ 0) :
    HOLDER ≤ s := by
  rw [HOLDER, Nat.and_two_pow] at h
  rcases hb : s.testBit 31 with _ | _
  · rw [hb] at h
    simp at h
  · rw [Nat.testBit_to_div_mod] at hb
    have hd : s / 2 ^ 31 % 2 = 1 := of_decide_eq_true hb
    have h31 : (2 : Nat) ^ 31 = 2147483648 := by norm_num
    rw [h31] at hd
    rw [HOLDER_val]
    omega

/-- C1: `atomic_mutex::unlock` subtracts `HOLDER + WAITER` from the word
with release ordering, observing the prior value `w`; under the
precondition `w & HOLDER` (the assert in `unlock_impl`) it issues exactly
one `wake_one` if and only if the prior value differed from
`HOLDER + WAITER`; an uncontended unlock (prior value exactly
`HOLDER + WAITER`) issues no wake at all. -/
theorem unlock_wake_iff_contended (w : Nat) (hpre : w &&& HOLDER ≠ 0) :
    (M.unlock w).2 = wsub w (HOLDER + WAITER) ∧
    HOLDER ≤ w ∧
    ((M.unlock w).1 = [Evt.wakeOne] ↔ w ≠ HOLDER + WAITER) ∧
    (w = HOLDER + WAITER → (M.unlock w).1 = []) ∧
    (M.unlock w).1.length ≤ 1 ∧
    unlock_impl_order = MemOrder.release ∧
    unlock_impl_assert w = true := by
  have hle := holder_le_of_land_ne hpre
  refine ⟨rfl, hle, ?_, ?_, ?_, rfl, ?_⟩
  · by_cases h : w = HOLDER + WAITER <;> simp [M_unlock_evts, h]
  · intro h
    simp [M_unlock_evts, h]
  · by_cases h : w = HOLDER + WAITER <;> simp [M_unlock_evts, h]
  · simp [unlock_impl_assert, hpre]

theorem unlock_wake_iff_contended_witness :
    (HOLDER + 2) &&& HOLDER ≠ 0 ∧
    ((M.unlock (HOLDER + 2)).2 = wsub (HOLDER + 2) (HOLDER + WAITER) ∧
     HOLDER ≤ HOLDER + 2 ∧
     ((M.unlock (HOLDER + 2)).1 = [Evt.wakeOne] ↔
       HOLDER + 2 ≠ HOLDER + WAITER) ∧
     (HOLDER + 2 = HOLDER + WAITER → (M.unlock (HOLDER + 2)).1 = []) ∧
     (M.unlock (HOLDER + 2)).1.length ≤ 1 ∧
     unlock_impl_order = MemOrder.release ∧
     unlock_impl_assert (HOLDER + 2) = true) :=
  ⟨by decide, unlock_wake_iff_contended (HOLDER + 2) (by decide)⟩

/-- C5: `atomic_mutex::try_lock` succeeds exactly when the word is `0`,
in which case it publishes `HOLDER | WAITER` (which equals
`HOLDER + WAITER`) with acquire ordering on success and relaxed on
failure; on failure it leaves the word unchanged; it issues no wake and
contains no wait. -/
theorem try_lock_zero_iff (w : Nat) :
    ((M.try_lock w).1 = true ↔ w = 0) ∧
    (w = 0 → (M.try_lock w).2 = HOLDER ||| WAITER) ∧
    HOLDER + WAITER = HOLDER ||| WAITER ∧
    (w ≠ 0 → M.try_lock w = (false, w)) ∧
    M.try_lock_evts = [] ∧
    lock_impl_success_order = MemOrder.acquire ∧
    lock_impl_failure_order = MemOrder.relaxed := by
  have hor : HOLDER + WAITER = HOLDER ||| WAITER := by decide
  refine ⟨?_, ?_, hor, ?_, rfl, rfl, rfl⟩
  · by_cases h : w = 0 <;> simp [M.try_lock, lock_impl, h]
  · intro h
    simp [M.try_lock, lock_impl, h, hor]
  · intro h
    simp [M.try_lock, lock_impl, h]

theorem try_lock_zero_iff_witness :
    ((M.try_lock 0).1 = true ↔ (0 : Nat) = 0) ∧
    ((0 : Nat) = 0 → (M.try_lock 0).2 = HOLDER ||| WAITER) ∧
    HOLDER + WAITER = HOLDER ||| WAITER ∧
    ((0 : Nat) ≠ 0 → M.try_lock 0 = (false, 0)) ∧
    M.try_lock_evts = [] ∧
    lock_impl_success_order = MemOrder.acquire ∧
    lock_impl_failure_order = MemOrder.relaxed :=
  try_lock_zero_iff 0

/-! ## Shared mutex: `shared_mutex_storage` and `atomic_shared_mutex`

The storage is the lock word `s` (with the same `HOLDER` / `WAITER`
constants, `X = HOLDER`) plus the embedded `atomic_mutex` `ex`, modelled
by its own word. -/

/-- one iteration of the `compare_exchange_weak` loop in
`atomic_shared_mutex::try_lock_shared`: `lk` is the current expected
value and `s` the word value that the CAS observes.  When they agree the
CAS succeeds, the word becomes `lk + WAITER` and the call returns true;
otherwise the expected value becomes `s`, and if `s & X` is set the call
returns false with the word unchanged, else the loop retries. -/
def tls_step (lk s : Nat) : Sum (Bool × Nat) Nat :=
  if s = lk then Sum.inl (true, wadd lk WAITER)
  else if s &&& HOLDER ≠ 0 then Sum.inl (false, s)
  else Sum.inr s

/-- run of `atomic_shared_mutex::try_lock_shared` against the sequence
`obs` of word values observed by the successive CAS attempts; the
initial expected value is `0` (`type lk = 0`).  The result is `none`
when the observation sequence runs out before the loop exits, and
otherwise carries the returned Bool and the final word value. -/
def tls_run : List Nat → Nat → Option (Bool × Nat)
  | [], _ => none
  | s :: rest, lk =>
    match tls_step lk s with
    | Sum.inl r => some r
    | Sum.inr lk2 => tls_run rest lk2

/-- ordering of the successful CAS leg in `try_lock_shared` -/
def tls_success_order : MemOrder := MemOrder.acquire

/-- ordering of the failing CAS leg in `try_lock_shared` -/
def tls_failure_order : MemOrder := MemOrder.relaxed

/-- wake events issued by `try_lock_shared`: the function contains no
`notify_one`, `notify_all` or `wait` call -/
def try_lock_shared_evts : List Evt := []

/-- C4: for the word value observed by `try_lock_shared`, a value with
the `HOLDER` bit set makes the call return false with the word
unchanged (whatever happens later); a CAS attempt that observes the
expected value publishes that value plus `WAITER` with acquire ordering
and returns true (in particular an unchanging word is acquired within
two attempts); the call issues no wake. -/
theorem try_lock_shared_cas (s : Nat) (hs : s < WORD) :
    (s &&& HOLDER ≠ 0 → ∀ rest, tls_run (s :: rest) 0 = some (false, s)) ∧
    (s &&& HOLDER = 0 → tls_run [s, s] 0 = some (true, s + WAITER)) ∧
    (∀ lk v, lk &&& HOLDER = 0 → v &&& HOLDER ≠ 0 →
      tls_step lk v = Sum.inl (false, v)) ∧
    (∀ v, v < WORD → v &&& HOLDER = 0 →
      tls_step v v = Sum.inl (true, v + WAITER)) ∧
    try_lock_shared_evts = [] ∧
    tls_success_order = MemOrder.acquire ∧
    tls_failure_order = MemOrder.relaxed := by
  have step_succ : ∀ v, v < WORD → v &&& HOLDER = 0 →
      tls_step v v = Sum.inl (true, v + WAITER) := by
    intro v hv h0
    have hlt : v < HOLDER := (land_holder_eq_zero_iff hv).mp h0
    have hW : v + WAITER < WORD := by
      rw [HOLDER_val] at hlt
      rw [WORD_val]
      simp [WAITER]
      omega
    simp [tls_step, wadd_eq_add hW]
  refine ⟨?_, ?_, ?_, step_succ, rfl, rfl, rfl⟩
  · intro h rest
    have hne : s ≠ 0 := by
      intro h0
      rw [h0] at h
      simp at h
    simp [tls_run, tls_step, hne, h]
  · intro h
    by_cases h0 : s = 0
    · subst h0
      decide
    · have hstep := step_succ s hs h
      have e1 : tls_step 0 s = Sum.inr s := by
        simp [tls_step, h0, h]
      simp [tls_run, e1, hstep]
  · intro lk v h1 h2
    have hne : v ≠ lk := by
      intro e
      rw [e] at h2
      exact h2 h1
    simp [tls_step, hne, h2]

theorem try_lock_shared_cas_witness :
    (5 : Nat) < WORD ∧
    (((5 : Nat) &&& HOLDER ≠ 0 → ∀ rest, tls_run (5 :: rest) 0 = some (false, 5)) ∧
     ((5 : Nat) &&& HOLDER = 0 → tls_run [5, 5] 0 = some (true, 5 + WAITER)) ∧
     (∀ lk v, lk &&& HOLDER = 0 → v &&& HOLDER ≠ 0 →
       tls_step lk v = Sum.inl (false, v)) ∧
     (∀ v, v < WORD → v &&& HOLDER = 0 →
       tls_step v v = Sum.inl (true, v + WAITER)) ∧
     try_lock_shared_evts = [] ∧
     tls_success_order = MemOrder.acquire ∧
     tls_failure_order = MemOrder.relaxed) :=
  ⟨by decide, try_lock_shared_cas 5 (by decide)⟩

/-- state of an `atomic_shared_mutex`: the lock word `s` and the word of
the embedded `atomic_mutex` `ex` -/
structure SM where
  s : Nat
  ex : Nat
deriving DecidableEq

/-- mutex_storage::is_locked of the embedded mutex `ex` -/
def ex_is_locked (st : SM) : Bool := decide (st.ex &&& HOLDER ≠ 0)

/-- atomic_shared_mutex::lock_update_downgrade —
`store(WAITER, memory_order_release)` on the lock word; `ex` stays
held.  The asserts require `ex` locked and the word equal to `HOLDER`. -/
def lock_update_downgrade (st : SM) : SM := { st with s := WAITER }

/-- ordering of the store in `lock_update_downgrade` -/
def downgrade_store_order : MemOrder := MemOrder.release

/-- atomic_shared_mutex::update_lock_upgrade —
`fetch_add(X - WAITER, memory_order_acquire)` on the lock word,
observing the prior value `lk`; the Bool of the result records whether
`lk != WAITER`, i.e. whether `exclusive_lock_wait(lk - WAITER)` is
entered. -/
def update_lock_upgrade (st : SM) : SM × Bool :=
  ({ st with s := wadd st.s (HOLDER - WAITER) }, decide (st.s ≠ WAITER))

/-- ordering of the fetch_add in `update_lock_upgrade` -/
def upgrade_add_order : MemOrder := MemOrder.acquire

/-- C6: starting from the exclusively locked state (`s = HOLDER`, `ex`
held), `lock_update_downgrade` stores `WAITER` into the word keeping
`ex`, and an immediately following `update_lock_upgrade` observes the
prior value `WAITER`, does not enter the exclusive wait loop, and
restores the state exactly: `s = HOLDER` and `ex` unchanged. -/
theorem downgrade_upgrade_noop (st : SM) (hex : st.ex &&& HOLDER ≠ 0)
    (hs : st.s = HOLDER) :
    update_lock_upgrade (lock_update_downgrade st) = (st, false) ∧
    (lock_update_downgrade st).s = WAITER ∧
    (lock_update_downgrade st).ex = st.ex ∧
    ex_is_locked (lock_update_downgrade st) = true ∧
    downgrade_store_order = MemOrder.release ∧
    upgrade_add_order = MemOrder.acquire := by
  obtain ⟨s, e⟩ := st
  simp only [SM.mk.injEq] at hs ⊢
  subst hs
  refine ⟨?_, rfl, rfl, ?_, rfl, rfl⟩
  · have h1 : wadd WAITER (HOLDER - WAITER) = HOLDER := by decide
    have h2 : (decide (WAITER ≠ WAITER)) = false := by decide
    simp [update_lock_upgrade, lock_update_downgrade, h1, h2]
  · simpa [ex_is_locked, lock_update_downgrade] using hex

theorem downgrade_upgrade_noop_witness :
    ((⟨HOLDER, HOLDER + WAITER⟩ : SM).ex &&& HOLDER ≠ 0) ∧
    ((⟨HOLDER, HOLDER + WAITER⟩ : SM).s = HOLDER) ∧
    (update_lock_upgrade (lock_update_downgrade ⟨HOLDER, HOLDER + WAITER⟩)
       = (⟨HOLDER, HOLDER + WAITER⟩, false) ∧
     (lock_update_downgrade (⟨HOLDER, HOLDER + WAITER⟩ : SM)).s = WAITER ∧
     (lock_update_downgrade (⟨HOLDER, HOLDER + WAITER⟩ : SM)).ex
       = (⟨HOLDER, HOLDER + WAITER⟩ : SM).ex ∧
     ex_is_locked (lock_update_downgrade ⟨HOLDER, HOLDER + WAITER⟩) = true ∧
     downgrade_store_order = MemOrder.release ∧
     upgrade_add_order = MemOrder.acquire) :=
  ⟨by decide, by decide,
   downgrade_upgrade_noop ⟨HOLDER, HOLDER + WAITER⟩ (by decide) (by decide)⟩

/-- C3 counterexample: in the state right after `lock_update_downgrade`
(lock word `WAITER`, `ex` still held with word `HOLDER + WAITER`), a
`try_lock_shared` by another thread succeeds immediately — it returns
true and publishes `WAITER + WAITER` — contrary to the claim that it
must return false until `ex` is released. -/
theorem try_lock_shared_succeeds_after_downgrade :
    (lock_update_downgrade ⟨HOLDER, HOLDER + WAITER⟩).ex &&& HOLDER ≠ 0 ∧
    tls_run [(lock_update_downgrade ⟨HOLDER, HOLDER + WAITER⟩).s,
             (lock_update_downgrade ⟨HOLDER, HOLDER + WAITER⟩).s] 0
      = some (true, WAITER + WAITER) := by
  constructor
  · decide
  · decide

/-- C3 amended: after `lock_update_downgrade` the lock word is `WAITER`
with the `HOLDER` bit clear, so a `try_lock_shared` by another thread
succeeds immediately even while `ex` is still held (shared mode
coexists with update mode); what does wait for the release of `ex` is
the `lock_shared` wait path, whose rendezvous must acquire `ex` and
whose `lock_impl` fails as long as `ex` is nonzero. -/
theorem downgrade_shared_coexistence (st : SM) (hex : st.ex &&& HOLDER ≠ 0)
    (hs : st.s = HOLDER) :
    (lock_update_downgrade st).ex = st.ex ∧
    (lock_update_downgrade st).s = WAITER ∧
    tls_run [WAITER, WAITER] 0 = some (true, WAITER + WAITER) ∧
    (lock_impl (lock_update_downgrade st).ex).1 = false := by
  have hne : st.ex ≠ 0 := by
    intro h
    rw [h] at hex
    simp at hex
  exact ⟨rfl, rfl, by decide, by simp [lock_impl, lock_update_downgrade, hne]⟩

theorem downgrade_shared_coexistence_witness :
    ((⟨HOLDER, HOLDER + WAITER⟩ : SM).ex &&& HOLDER ≠ 0) ∧
    ((⟨HOLDER, HOLDER + WAITER⟩ : SM).s = HOLDER) ∧
    ((lock_update_downgrade (⟨HOLDER, HOLDER + WAITER⟩ : SM)).ex
       = (⟨HOLDER, HOLDER + WAITER⟩ : SM).ex ∧
     (lock_update_downgrade (⟨HOLDER, HOLDER + WAITER⟩ : SM)).s = WAITER ∧
     tls_run [WAITER, WAITER] 0 = some (true, WAITER + WAITER) ∧
     (lock_impl (lock_update_downgrade (⟨HOLDER, HOLDER + WAITER⟩ : SM)).ex).1
       = false) :=
  ⟨by decide, by decide,
   downgrade_shared_coexistence ⟨HOLDER, HOLDER + WAITER⟩ (by decide) (by decide)⟩

/-- atomic_shared_mutex::unlock_shared —
`fetch_sub(WAITER, memory_order_release)` on the lock word observing the
prior value, then `notify_one` exactly when that prior value equals
`X + WAITER`; returns (wake events issued, new word value) -/
def unlock_shared (s : Nat) : List Evt × Nat :=
  (if s = HOLDER + WAITER then [Evt.wakeOne] else [], wsub s WAITER)

/-- ordering of the fetch_sub in `unlock_shared` -/
def unlock_shared_order : MemOrder := MemOrder.release

/-- C2: `unlock_shared` subtracts `WAITER` from the word with release
ordering and issues a `wake_one` if and only if the prior value was
exactly `HOLDER + WAITER`; for any other prior value no wake is
issued. -/
theorem unlock_shared_wake_iff (s : Nat) (hs : s < WORD) :
    ((unlock_shared s).1 = [Evt.wakeOne] ↔ s = HOLDER + WAITER) ∧
    (s ≠ HOLDER + WAITER → (unlock_shared s).1 = []) ∧
    (unlock_shared s).2 = wsub s WAITER ∧
    (0 < s → (unlock_shared s).2 = s - WAITER) ∧
    unlock_shared_order = MemOrder.release := by
  refine ⟨?_, ?_, rfl, ?_, rfl⟩
  · by_cases h : s = HOLDER + WAITER <;> simp [unlock_shared, h]
  · intro h
    simp [unlock_shared, h]
  · intro h
    have : WAITER ≤ s := h
    simp [unlock_shared, wsub_eq_sub this hs]

theorem unlock_shared_wake_iff_witness :
    (HOLDER + WAITER) < WORD ∧
    (((unlock_shared (HOLDER + WAITER)).1 = [Evt.wakeOne] ↔
        HOLDER + WAITER = HOLDER + WAITER) ∧
     (HOLDER + WAITER ≠ HOLDER + WAITER →
        (unlock_shared (HOLDER + WAITER)).1 = []) ∧
     (unlock_shared (HOLDER + WAITER)).2 = wsub (HOLDER + WAITER) WAITER ∧
     (0 < HOLDER + WAITER →
        (unlock_shared (HOLDER + WAITER)).2 = HOLDER + WAITER - WAITER) ∧
     unlock_shared_order = MemOrder.release) :=
  ⟨by decide, unlock_shared_wake_iff (HOLDER + WAITER) (by decide)⟩

/-- x86 branch of `atomic_shared_mutex::exclusive_acquire` —
`fetch_add(X, memory_order_acquire)` on the lock word; returns
(prior value observed, new word value) -/
def exclusive_acquire_x86 (v : Nat) : Nat × Nat := (v, wadd v HOLDER)

/-- generic branch of `exclusive_acquire` —
`fetch_or(X, memory_order_acquire)` on the lock word -/
def exclusive_acquire_generic (v : Nat) : Nat × Nat := (v, v ||| HOLDER)

/-- compile-time guard of the x86 branch:
`X == type(~(type(~type(0) >> 1)))`, i.e. `X` is the most significant
bit of the 32-bit word -/
def x86_branch_guard : Bool := decide (HOLDER = 2 ^ 31)

/-- ordering of both branches of `exclusive_acquire` -/
def exclusive_acquire_order : MemOrder := MemOrder.acquire

/-- C7: for every word value `v` observable in `exclusive_acquire` while
holding `ex` (so the `HOLDER` bit is clear in `v`), the
`fetch_add(HOLDER)` of the x86 branch and the `fetch_or(HOLDER)` of the
generic branch return the same prior value `v` and produce the same new
word `v | HOLDER`; the two branches are equivalent, and the guard of the
x86 branch holds for the 32-bit storage. -/
theorem exclusive_acquire_equiv (v : Nat) (hv : v < WORD)
    (hfree : v &&& HOLDER = 0) :
    exclusive_acquire_x86 v = exclusive_acquire_generic v ∧
    (exclusive_acquire_x86 v).2 = v ||| HOLDER ∧
    (exclusive_acquire_x86 v).1 = v ∧
    (exclusive_acquire_generic v).1 = v ∧
    x86_branch_guard = true := by
  have hlt : v < HOLDER := (land_holder_eq_zero_iff hv).mp hfree
  have hor : v ||| HOLDER = v + HOLDER := lor_holder_eq_add hlt
  have hsum : v + HOLDER < WORD := by
    rw [HOLDER_val] at hlt ⊢
    rw [WORD_val]
    omega
  have hadd : wadd v HOLDER = v + HOLDER := wadd_eq_add hsum
  exact ⟨by simp [exclusive_acquire_x86, exclusive_acquire_generic, hadd, hor],
    by simp [exclusive_acquire_x86, hadd, hor], rfl, rfl, by decide⟩

theorem exclusive_acquire_equiv_witness :
    (3 : Nat) < WORD ∧ (3 : Nat) &&& HOLDER = 0 ∧
    (exclusive_acquire_x86 3 = exclusive_acquire_generic 3 ∧
     (exclusive_acquire_x86 3).2 = 3 ||| HOLDER ∧
     (exclusive_acquire_x86 3).1 = 3 ∧
     (exclusive_acquire_generic 3).1 = 3 ∧
     x86_branch_guard = true) :=
  ⟨by decide, by decide, exclusive_acquire_equiv 3 (by decide) (by decide)⟩

/-! ## Condition variable: `atomic_condition_variable`

The state is the waiter count `c`. -/

/-- wake kinds issued on the counter: `notify_one` or `notify_all` -/
inductive Wake
  | one
  | all
deriving DecidableEq

/-- atomic_condition_variable::signal —
`exchange(0, memory_order_release)` on the counter, then `notify_one`
exactly when the prior value was nonzero; returns
(wake issued, new counter value) -/
def signal (c : Nat) : Option Wake × Nat :=
  (if c ≠ 0 then some Wake.one else none, 0)

/-- atomic_condition_variable::broadcast —
`exchange(0, memory_order_release)` on the counter, then `notify_all`
exactly when the prior value was nonzero -/
def broadcast (c : Nat) : Option Wake × Nat :=
  (if c ≠ 0 then some Wake.all else none, 0)

/-- ordering of the exchange in `signal` and `broadcast` -/
def cv_exchange_order : MemOrder := MemOrder.release

/-- C9: `signal` and `broadcast` exchange the counter with `0` using
release ordering; they issue a wake (`wake_one` for `signal`,
`wake_all` for `broadcast`) if and only if the prior value was nonzero;
the counter is `0` afterwards, and on a zero counter both operations
have no effect. -/
theorem signal_broadcast_wake_iff (c : Nat) :
    (signal c).2 = 0 ∧
    (broadcast c).2 = 0 ∧
    ((signal c).1 = some Wake.one ↔ c ≠ 0) ∧
    ((signal c).1 = none ↔ c = 0) ∧
    ((broadcast c).1 = some Wake.all ↔ c ≠ 0) ∧
    ((broadcast c).1 = none ↔ c = 0) ∧
    (c = 0 → signal c = (none, c) ∧ broadcast c = (none, c)) ∧
    cv_exchange_order = MemOrder.release := by
  by_cases h : c = 0 <;> simp [signal, broadcast, h] <;> rfl

theorem signal_broadcast_wake_iff_witness :
    (signal 0).2 = 0 ∧
    (broadcast 0).2 = 0 ∧
    ((signal 0).1 = some Wake.one ↔ (0 : Nat) ≠ 0) ∧
    ((signal 0).1 = none ↔ (0 : Nat) = 0) ∧
    ((broadcast 0).1 = some Wake.all ↔ (0 : Nat) ≠ 0) ∧
    ((broadcast 0).1 = none ↔ (0 : Nat) = 0) ∧
    ((0 : Nat) = 0 → signal 0 = (none, 0) ∧ broadcast 0 = (none, 0)) ∧
    cv_exchange_order = MemOrder.release :=
  signal_broadcast_wake_iff 0

/-! ## unlock_update safety -/

/-- word part of `atomic_shared_mutex::unlock_update` —
`fetch_sub(WAITER, memory_order_release)` on the lock word -/
def unlock_update_impl (s : Nat) : Nat := wsub s WAITER

/-- debug assertions in `unlock_update` on the prior value `lk`:
`assert(lk)` and `assert(lk < X)` -/
def unlock_update_asserts (lk : Nat) : Bool :=
  decide (lk ≠ 0) && decide (lk < HOLDER)

/-- ordering of the fetch_sub in `unlock_update` -/
def unlock_update_order : MemOrder := MemOrder.release

/-- atomic_shared_mutex::unlock_update — the fetch_sub on the lock word
followed by `ex.unlock()`; the wake events are those of the mutex
release -/
def unlock_update (st : SM) : List Evt × SM :=
  ((M.unlock st.ex).1, ⟨wsub st.s WAITER, (M.unlock st.ex).2⟩)

/-- C10: under the update-mode precondition `0 < lk < HOLDER` on the
prior value of the lock word, both assertions of `unlock_update` hold
(the assertion-failure branch is unreachable), and the
`fetch_sub(WAITER)` neither underflows the reader count nor disturbs
the `HOLDER` bit: the new word is `lk - WAITER`, still below `HOLDER`
and with the `HOLDER` bit clear. -/
theorem unlock_update_no_underflow (lk : Nat) (h1 : 0 < lk)
    (h2 : lk < HOLDER) :
    unlock_update_asserts lk = true ∧
    unlock_update_impl lk = lk - WAITER ∧
    (lk - WAITER) &&& HOLDER = 0 ∧
    lk - WAITER < HOLDER ∧
    unlock_update_order = MemOrder.release := by
  have hHW : HOLDER < WORD := by decide
  have hW : lk < WORD := lt_trans h2 hHW
  have hne : lk ≠ 0 := by omega
  have hwle : WAITER ≤ lk := by
    simp [WAITER]
    omega
  have hsub : lk - WAITER < HOLDER := by
    simp [WAITER]
    omega
  refine ⟨?_, ?_, ?_, hsub, rfl⟩
  · simp [unlock_update_asserts, hne, h2]
  · exact wsub_eq_sub hwle hW
  · exact (land_holder_eq_zero_iff (by omega)).mpr hsub

theorem unlock_update_no_underflow_witness :
    (0 : Nat) < 1 ∧ (1 : Nat) < HOLDER ∧
    (unlock_update_asserts 1 = true ∧
     unlock_update_impl 1 = 1 - WAITER ∧
     ((1 : Nat) - WAITER) &&& HOLDER = 0 ∧
     (1 : Nat) - WAITER < HOLDER ∧
     unlock_update_order = MemOrder.release) :=
  ⟨by decide, by decide, unlock_update_no_underflow 1 (by decide) (by decide)⟩

/-! ## Shared-wait protocol traces

The contended shared-acquisition paths are modelled as event traces.
An iteration of the rendezvous is abstracted by the outcome of its
`try_lock_shared` call, so a run is driven by the list of those
outcomes (the schedule); the trace records every acquisition of `ex`
(plain `lock` or `spin_lock`), every `try_lock_shared` outcome, and
every release of `ex`. -/

/-- kind of an acquisition of the embedded mutex `ex` -/
inductive ExAcq
  | plain
  | spin
deriving DecidableEq

/-- events of the shared-wait protocol -/
inductive SLEvt
  | lockEx (kind : ExAcq)
  | tryShared (ok : Bool)
  | unlockEx
deriving DecidableEq

/-- one rendezvous iteration: acquire `ex` (of the given kind), call
`try_lock_shared` with outcome `ok`, release `ex` -/
def sl_iter (kind : ExAcq) (ok : Bool) : List SLEvt :=
  [SLEvt.lockEx kind, SLEvt.tryShared ok, SLEvt.unlockEx]

/-- atomic_shared_mutex::shared_lock_wait (header file): loop
`{ ex.lock(); acquired = try_lock_shared(); ex.unlock(); }` until
acquired.  Returns `none` when the schedule runs out before the loop
exits. -/
def shared_lock_wait : List Bool → Option (List SLEvt)
  | [] => none
  | ok :: rest =>
    if ok then some (sl_iter ExAcq.plain true)
    else (shared_lock_wait rest).map (fun t => sl_iter ExAcq.plain false ++ t)

/-- atomic_shared_mutex::spin_shared_lock_wait (header file):
`ex.spin_lock(); acquired = try_lock_shared(); ex.unlock();` and, when
not acquired, fall back to `shared_lock_wait()` -/
def spin_shared_lock_wait : List Bool → Option (List SLEvt)
  | [] => none
  | ok :: rest =>
    if ok then some (sl_iter ExAcq.spin true)
    else (shared_lock_wait rest).map (fun t => sl_iter ExAcq.spin false ++ t)

/-- atomic_shared_mutex::spin_shared_lock_wait of the non-template
variant in atomic_shared_mutex.cc: loop
`{ ex.spin_lock(); acquired = try_lock_shared(); ex.unlock(); }` until
acquired -/
def spin_shared_lock_wait_cc : List Bool → Option (List SLEvt)
  | [] => none
  | ok :: rest =>
    if ok then some (sl_iter ExAcq.spin true)
    else (spin_shared_lock_wait_cc rest).map
      (fun t => sl_iter ExAcq.spin false ++ t)

/-- atomic_shared_mutex::lock_shared — `try_lock_shared` (outcome
`first`), on failure `shared_lock_wait` -/
def lock_shared (first : Bool) (sched : List Bool) : Option (List SLEvt) :=
  if first then some [] else shared_lock_wait sched

/-- atomic_shared_mutex::spin_lock_shared — `try_lock_shared` (outcome
`first`), on failure `spin_shared_lock_wait` -/
def spin_lock_shared (first : Bool) (sched : List Bool) : Option (List SLEvt) :=
  if first then some [] else spin_shared_lock_wait sched

theorem shared_lock_wait_replicate (n : Nat) (rest : List Bool) :
    shared_lock_wait (List.replicate n false ++ true :: rest)
      = some ((List.replicate n (sl_iter ExAcq.plain false)).flatten
          ++ sl_iter ExAcq.plain true) := by
  induction n with
  | zero => simp [shared_lock_wait]
  | succ k ih =>
    rw [List.replicate_succ, List.cons_append]
    simp [shared_lock_wait, ih, List.replicate_succ]

theorem spin_shared_lock_wait_cc_replicate (n : Nat) (rest : List Bool) :
    spin_shared_lock_wait_cc (List.replicate n false ++ true :: rest)
      = some ((List.replicate n (sl_iter ExAcq.spin false)).flatten
          ++ sl_iter ExAcq.spin true) := by
  induction n with
  | zero => simp [spin_shared_lock_wait_cc]
  | succ k ih =>
    rw [List.replicate_succ, List.cons_append]
    simp [spin_shared_lock_wait_cc, ih, List.replicate_succ]

/-- C8 counterexample: under the schedule where the first rendezvous
fails and the second succeeds, the header-file `spin_shared_lock_wait`
acquires `ex` the second time with a plain `ex.lock` — its trace
contains `lockEx plain` — contrary to the claim that every acquisition
of `ex` in the wait path of `spin_lock_shared` uses `ex.spin_lock`. -/
theorem spin_shared_wait_uses_plain_lock :
    spin_lock_shared false [false, true]
      = some (sl_iter ExAcq.spin false ++ sl_iter ExAcq.plain true) ∧
    SLEvt.lockEx ExAcq.plain ∈
      (sl_iter ExAcq.spin false ++ sl_iter ExAcq.plain true) ∧
    spin_shared_lock_wait_cc [false, true]
      = some (sl_iter ExAcq.spin false ++ sl_iter ExAcq.spin true) := by
  refine ⟨by decide, by decide, by decide⟩

/-- C8 amended: `lock_shared`, when `try_lock_shared` fails, loops
`{ lock ex; retry try_lock_shared; unlock ex }` until the shared
acquisition succeeds.  `spin_lock_shared` (header file) performs the
same protocol except that only its first acquisition of `ex` uses
`ex.spin_lock`; if that first rendezvous fails it falls back to
`shared_lock_wait`, whose acquisitions use plain `ex.lock`.  The
non-template variant in atomic_shared_mutex.cc uses `ex.spin_lock` in
every iteration. -/
theorem shared_wait_protocol (n : Nat) (rest sched : List Bool) :
    lock_shared true sched = some [] ∧
    lock_shared false (List.replicate n false ++ true :: rest)
      = some ((List.replicate n (sl_iter ExAcq.plain false)).flatten
          ++ sl_iter ExAcq.plain true) ∧
    spin_lock_shared false (true :: rest) = some (sl_iter ExAcq.spin true) ∧
    spin_lock_shared false (false :: (List.replicate n false ++ true :: rest))
      = some (sl_iter ExAcq.spin false
          ++ ((List.replicate n (sl_iter ExAcq.plain false)).flatten
              ++ sl_iter ExAcq.plain true)) ∧
    spin_shared_lock_wait_cc (List.replicate n false ++ true :: rest)
      = some ((List.replicate n (sl_iter ExAcq.spin false)).flatten
          ++ sl_iter ExAcq.spin true) := by
  refine ⟨rfl, ?_, ?_, ?_, spin_shared_lock_wait_cc_replicate n rest⟩
  · simp [lock_shared, shared_lock_wait_replicate]
  · simp [spin_lock_shared, spin_shared_lock_wait]
  · simp [spin_lock_shared, spin_shared_lock_wait,
      shared_lock_wait_replicate]

end AtomicSync
